import Mathlib

/-!
Verification development for the feed pipeline of the real-estate dashboard
updater (src/updater/main.py, with the alternative module src/updater/feeds.py).
The pipeline builds the structured "10/10/20" feed: fetch entries per source,
filter by freshness, deduplicate by normalized title, sort newest-first,
classify into macro/housing/notables buckets, and derive the structured
output fields.  All text is modelled over Lean strings; characters model
Python code points, and character-level helpers (lower-casing, whitespace)
model Python string methods on the ASCII range.
-/

namespace Dashboard

/-- Model of Python str.lower on the ASCII range (keywords and normalization
in the source operate on ASCII keyword material). -/
def lowerChar (c : Char) : Char :=
  if 65 ≤ c.toNat && c.toNat ≤ 90 then Char.ofNat (c.toNat + 32) else c

/-- Model of the character class matched by Python regex \s on ASCII data:
space, tab, newline, carriage return, vertical tab, form feed. -/
def isSpaceC (c : Char) : Bool :=
  c == ' ' || c == '\t' || c == '\n' || c == '\r' || c == Char.ofNat 11 || c == Char.ofNat 12

/-- Decides whether the first list is an initial segment of the second. -/
def startsWithL : List Char → List Char → Bool
  | [], _ => true
  | _ :: _, [] => false
  | p :: ps, c :: cs => p == c && startsWithL ps cs

/-- Substring containment on character lists: Python's needle in hay. -/
def containsL (needle : List Char) : List Char → Bool
  | [] => needle.isEmpty
  | c :: cs => startsWithL needle (c :: cs) || containsL needle cs

/-- Python needle in hay on strings. -/
def occursIn (needle hay : String) : Bool :=
  containsL needle.data hay.data

/-- Python str.lower (ASCII model). -/
def lowerStr (s : String) : String :=
  String.mk (s.data.map lowerChar)

/-- Python str.strip on a character list. -/
def stripL (l : List Char) : List Char :=
  ((l.dropWhile isSpaceC).reverse.dropWhile isSpaceC).reverse

/-- Python str.strip. -/
def stripStr (s : String) : String :=
  String.mk (stripL s.data)

/-- KEYWORDS_101020 macro list from src/updater/main.py. -/
def macroKws : List String :=
  ["fed", "fomc", "inflation", "cpi", "pce", "jobs", "payroll", "unemployment",
   "treasury", "yield", "rates", "mortgage rate", "mortgage rates", "bond", "curve",
   "core", "headline", "powell", "economic", "gdp"]

/-- KEYWORDS_101020 housing list from src/updater/main.py. -/
def housingKws : List String :=
  ["housing", "permit", "permits", "starts", "completions", "home sales", "home prices",
   "mortgage", "inventory", "listings", "new listings", "dom", "days on market",
   "pending", "closed sales", "builder", "nahb", "zillow", "redfin", "realtor.com", "rent"]

/-- The closed enumeration of topical buckets. -/
inductive Bucket where
  | macroB
  | housing
  | notables
deriving DecidableEq

/-- The classification branch of build_101020_from_rss in src/updater/main.py:
keyword membership is tested in the lowercased title or in the lowercased
cleaned body (two separate containment tests per keyword), macro first,
then housing, else notables. -/
def classify (tl bodyLc : String) : Bucket :=
  if macroKws.any (fun k => occursIn k tl || occursIn k bodyLc) then .macroB
  else if housingKws.any (fun k => occursIn k tl || occursIn k bodyLc) then .housing
  else .notables

/-- Model of a parsed feed entry as the pipeline reads it: optional raw title
and link, the three candidate parsed timestamps (as epoch seconds, the value
of int(time.mktime(...)) on the corresponding struct_time when present), and
the optional body fields summary, description and content (content stands for
content[0].value when that access succeeds). -/
structure Entry where
  title : Option String
  link : Option String
  published : Option Int
  updated : Option Int
  created : Option Int
  summary : Option String
  description : Option String
  content : Option String
deriving DecidableEq

/-- Timestamp resolution of _ts_from_entry in src/updater/main.py: it loops
over ("published_parsed", "updated_parsed") only and returns the first
present value, None otherwise. -/
def tsFromEntry (e : Entry) : Option Int :=
  match e.published with
  | some t => some t
  | none =>
    match e.updated with
    | some t => some t
    | none => none

/-- Timestamp resolution of the loop in _parse_one in src/updater/feeds.py:
published_parsed, then updated_parsed, then created_parsed. -/
def tsFromEntryFeeds (e : Entry) : Option Int :=
  match e.published with
  | some t => some t
  | none =>
    match e.updated with
    | some t => some t
    | none =>
      match e.created with
      | some t => some t
      | none => none

/-- Body selection of _entry_body in src/updater/main.py: summary if the key
is present, else description, else content, else the empty string. -/
def entryBody (e : Entry) : String :=
  match e.summary with
  | some s => s
  | none =>
    match e.description with
    | some d => d
    | none =>
      match e.content with
      | some c => c
      | none => ""

/-- Replaces each occurrence of the tag pattern (an angle bracket, one or
more non-closing characters, a closing angle bracket) by a single space,
as re.sub does in _clean.  Fuel-driven scan; fuel equal to the list length
always suffices. -/
def stripTagsGo : Nat → List Char → List Char
  | 0, l => l
  | _ + 1, [] => []
  | fuel + 1, c :: rest =>
    if c == '<' then
      let inner := rest.takeWhile (fun d => d != '>')
      match rest.drop inner.length with
      | '>' :: after =>
        if inner.isEmpty then '<' :: stripTagsGo fuel rest
        else ' ' :: stripTagsGo fuel after
      | _ => '<' :: stripTagsGo fuel rest
    else c :: stripTagsGo fuel rest

/-- Entity table modelling Python's html.unescape restricted to the common
named and numeric entities that occur in feed bodies. -/
def entityTable : List (List Char × Char) :=
  [("&amp;".data, '&'), ("&lt;".data, '<'), ("&gt;".data, '>'),
   ("&quot;".data, '"'), ("&#39;".data, Char.ofNat 39)]

/-- Model of html.unescape over the finite entity table. -/
def unescapeGo : Nat → List Char → List Char
  | 0, l => l
  | _ + 1, [] => []
  | fuel + 1, c :: rest =>
    if c == '&' then
      match entityTable.find? (fun p => startsWithL p.1 (c :: rest)) with
      | some p => p.2 :: unescapeGo fuel ((c :: rest).drop p.1.length)
      | none => c :: unescapeGo fuel rest
    else c :: unescapeGo fuel rest

/-- Collapses every maximal run of whitespace into a single space, the
effect of re.sub on the whitespace-run pattern in _clean. -/
def collapseGo (prevSpace : Bool) : List Char → List Char
  | [] => []
  | c :: r =>
    if isSpaceC c then
      if prevSpace then collapseGo true r else ' ' :: collapseGo true r
    else c :: collapseGo false r

/-- The _clean helper of src/updater/main.py: empty input stays empty,
otherwise markup tags become spaces, HTML entities are decoded, whitespace
runs collapse to single spaces and the ends are stripped. -/
def cleanStr (s : String) : String :=
  if s = "" then ""
  else
    let l1 := stripTagsGo s.data.length s.data
    let l2 := unescapeGo l1.length l1
    String.mk (stripL (collapseGo false l2))

/-- The longest piece of the list strictly before the first occurrence of
the pattern: Python text.split(sep) taken at index zero. -/
def beforeFirst (pat : List Char) : List Char → List Char
  | [] => []
  | c :: rest =>
    if startsWithL pat (c :: rest) then []
    else c :: beforeFirst pat rest

/-- The ordered sentence-boundary markers of _first_sentence. -/
def sentenceSeps : List String := [". ", " — ", " – ", " | ", " • ", "! ", "? "]

/-- The _first_sentence helper of src/updater/main.py: clean the text, split
on the first listed separator that occurs anywhere in it and keep the part
before its first occurrence, else fall back to the first 180 characters;
the result is stripped either way. -/
def firstSentence (text : String) : String :=
  let t := cleanStr text
  match sentenceSeps.find? (fun sep => occursIn sep t) with
  | some sep => stripStr (String.mk (beforeFirst sep.data t.data))
  | none => stripStr (String.mk (t.data.take 180))

/-- ASCII digit test, the regex digit class. -/
def isDigitC (c : Char) : Bool := 48 ≤ c.toNat && c.toNat ≤ 57

/-- The character class of the run following the leading digit in the first
alternative of _NUM_PAT: digits, comma, dot. -/
def isNumBodyC (c : Char) : Bool := isDigitC c || c == ',' || c == '.'

/-- Case-insensitive initial-segment test; the pattern is given lowercased. -/
def startsWithCI : List Char → List Char → Bool
  | [], _ => true
  | _ :: _, [] => false
  | p :: ps, c :: cs => p == lowerChar c && startsWithCI ps cs

/-- The ordered magnitude-suffix alternation of the first _NUM_PAT branch. -/
def magnitudeSuffixes : List (List Char) :=
  ["billion".data, "million".data, "thousand".data, "bn".data, "mn".data, "k".data]

/-- Length consumed by the optional magnitude suffix, first alternative wins
(regex ordered alternation under re.I). -/
def matchMagnitude (l : List Char) : Option Nat :=
  (magnitudeSuffixes.find? (fun s => startsWithCI s l)).map List.length

/-- Match length at the head of the list for the digit part of the first
_NUM_PAT alternative: a digit, a greedy run of digits, commas and dots, an
optional single whitespace, an optional magnitude suffix. -/
def matchNumCore (l : List Char) : Option Nat :=
  match l with
  | [] => none
  | c :: rest =>
    if isDigitC c then
      let run := (rest.takeWhile isNumBodyC).length
      let afterRun := rest.drop run
      match afterRun with
      | [] => some (1 + run)
      | s :: r2 =>
        if isSpaceC s then some (1 + run + 1 + (matchMagnitude r2).getD 0)
        else some (1 + run + (matchMagnitude afterRun).getD 0)
    else none

/-- The first _NUM_PAT alternative: an optional dollar sign before the digit
part.  A dollar sign not followed by a digit fails (the optional dollar
cannot help, since a bare digit is then required at the dollar sign). -/
def matchAltA (l : List Char) : Option Nat :=
  match l with
  | '$' :: rest => (matchNumCore rest).map (· + 1)
  | _ => matchNumCore l

/-- Suffix of the percent alternative after the integer digits: either an
immediate percent sign, or a dot, one or more digits, then a percent sign.
A dot whose fraction or percent fails kills the branch, since dropping the
optional fraction leaves a percent sign required at the dot. -/
def tryPercentAt (r : List Char) : Option Nat :=
  match r with
  | '%' :: _ => some 1
  | '.' :: t =>
    let d := (t.takeWhile isDigitC).length
    if 0 < d then
      match t.drop d with
      | '%' :: _ => some (2 + d)
      | _ => none
    else none
  | _ => none

/-- Backtracking over the greedy one-to-three digit counter of the percent
alternative, largest digit count first. -/
def tryPercentK (l : List Char) : Nat → Option Nat
  | 0 => none
  | k + 1 =>
    match tryPercentAt (l.drop (k + 1)) with
    | some m => some (k + 1 + m)
    | none => tryPercentK l k

/-- The second _NUM_PAT alternative: one to three digits, an optional
fraction, a percent sign. -/
def matchPercent (l : List Char) : Option Nat :=
  tryPercentK l (min ((l.takeWhile isDigitC).length) 3)

/-- The third _NUM_PAT alternative: digits, an optional single whitespace,
then the basis-point marker, case-insensitively. -/
def matchBp (l : List Char) : Option Nat :=
  let d := (l.takeWhile isDigitC).length
  if 0 < d then
    match l.drop d with
    | [] => none
    | s :: r2 =>
      if isSpaceC s then
        if startsWithCI "bp".data r2 then some (d + 1 + 2) else none
      else
        if startsWithCI "bp".data (s :: r2) then some (d + 2) else none
  else none

/-- The fourth _NUM_PAT alternative: a dollar sign, a digit, a greedy run of
digits, commas and dots. -/
def matchDollar (l : List Char) : Option Nat :=
  match l with
  | '$' :: c :: rest =>
    if isDigitC c then some (2 + (rest.takeWhile isNumBodyC).length) else none
  | _ => none

/-- Ordered alternation of the four _NUM_PAT branches, first success wins,
exactly as the regex engine tries alternatives left to right. -/
def matchNumToken (l : List Char) : Option Nat :=
  match matchAltA l with
  | some n => some n
  | none =>
    match matchPercent l with
    | some n => some n
    | none =>
      match matchBp l with
      | some n => some n
      | none => matchDollar l

/-- Left-to-right non-overlapping scan of _NUM_PAT.findall: at each position
try a match; on success emit the matched text and continue after it, else
advance one character.  Every match consumes at least one character, so fuel
equal to the list length suffices. -/
def findallGo : Nat → List Char → List String
  | 0, _ => []
  | _ + 1, [] => []
  | fuel + 1, c :: rest =>
    match matchNumToken (c :: rest) with
    | some n => String.mk ((c :: rest).take n) :: findallGo fuel ((c :: rest).drop n)
    | none => findallGo fuel rest

/-- All _NUM_PAT matches of the text in order of occurrence. -/
def findallNum (s : String) : List String :=
  findallGo s.data.length s.data

/-- First-occurrence deduplication keyed by the given normalization, the
seen-set loop of _extract_numbers. -/
def dedupByGo (f : String → String) (seen : List String) : List String → List String
  | [] => []
  | x :: r =>
    if f x ∈ seen then dedupByGo f seen r
    else x :: dedupByGo f (f x :: seen) r

/-- The capped, deduplicated token list of _extract_numbers: stripped
matches of the cleaned text, deduplicated case-insensitively keeping first
occurrences, cut to six. -/
def numTokens (text : String) : List String :=
  (dedupByGo lowerStr [] ((findallNum (cleanStr text)).map stripStr)).take 6

/-- The _extract_numbers helper of src/updater/main.py. -/
def extractNumbers (text : String) : String :=
  String.intercalate ", " (numTokens text)

/-- ASCII letter test for the leading scheme character of a URL. -/
def isSchemeHeadC (c : Char) : Bool :=
  (65 ≤ c.toNat && c.toNat ≤ 90) || (97 ≤ c.toNat && c.toNat ≤ 122)

/-- Characters allowed after the first one in a URL scheme. -/
def isSchemeC (c : Char) : Bool :=
  isSchemeHeadC c || isDigitC c || c == '+' || c == '-' || c == '.'

/-- Removes a leading well-formed scheme and its colon, when present,
following the scheme recognition of urlparse. -/
def dropScheme (l : List Char) : List Char :=
  match l with
  | [] => []
  | c :: rest =>
    if isSchemeHeadC c then
      let run := (rest.takeWhile isSchemeC).length
      match rest.drop run with
      | ':' :: after => after
      | _ => c :: rest
    else c :: rest

/-- Model of urlparse(u).netloc for standard absolute URLs: after the
optional scheme, a double slash introduces the network location, which
extends to the next slash, question mark or hash; otherwise empty. -/
def netlocL (l : List Char) : List Char :=
  match dropScheme l with
  | '/' :: '/' :: rest => rest.takeWhile (fun c => c != '/' && c != '?' && c != '#')
  | _ => []

/-- Model of str.replace applied to the www-dot pattern with an empty
replacement: every occurrence anywhere in the string is removed, scanning
left to right. -/
def removeWwwGo : Nat → List Char → List Char
  | 0, l => l
  | _ + 1, [] => []
  | fuel + 1, c :: rest =>
    if startsWithL "www.".data (c :: rest) then removeWwwGo fuel (rest.drop 3)
    else c :: removeWwwGo fuel rest

/-- The _domain helper of src/updater/main.py: the network location of the
link with every www-dot occurrence removed by str.replace. -/
def domainStr (u : String) : String :=
  String.mk (removeWwwGo (netlocL u.data).length (netlocL u.data))

/-- Keyword group of the first _infer_why_market rule. -/
def rateGroupKws : List String :=
  ["mortgage rate", "mortgage rates", "mortgage", "rate", "yield", "treasury",
   "curve", "fed", "fomc", "cpi", "pce", "inflation"]

/-- Keyword group of the second _infer_why_market rule. -/
def supplyGroupKws : List String :=
  ["permit", "permits", "starts", "completions", "builder", "nahb"]

/-- Keyword group of the third _infer_why_market rule. -/
def priceGroupKws : List String :=
  ["price", "prices", "case-shiller", "hpi", "home prices"]

/-- Keyword group of the fourth _infer_why_market rule. -/
def velocityGroupKws : List String :=
  ["inventory", "listing", "listings", "dom", "days on market", "pending",
   "closed sales", "transactions"]

/-- Keyword group of the fifth _infer_why_market rule. -/
def rentGroupKws : List String := ["rent", "vacancy"]

/-- The _infer_why_market helper of src/updater/main.py: an ordered rule
table over the concatenation of lowercased title and body, first matching
group wins, with a generic fallback pair. -/
def inferWhyMarket (tl bodyLc : String) : String × String :=
  let t := tl ++ " " ++ bodyLc
  if rateGroupKws.any (fun k => occursIn k t) then
    ("Rates & inflation shape discount rates and housing affordability.",
     "Lower rates support demand/valuations; higher rates pressure builders/REITs and slow transactions.")
  else if supplyGroupKws.any (fun k => occursIn k t) then
    ("Supply pipeline sets future inventory and construction activity.",
     "Stronger pipeline aids suppliers; oversupply later can weigh on pricing.")
  else if priceGroupKws.any (fun k => occursIn k t) then
    ("Price trend signals wealth effects and buyer/seller power.",
     "Firm prices help builder margins; softness hits comps and sentiment.")
  else if velocityGroupKws.any (fun k => occursIn k t) then
    ("Inventory and velocity drive pricing power and volume.",
     "Rising inventory/DOM tilts to buyers; tight supply supports prices.")
  else if rentGroupKws.any (fun k => occursIn k t) then
    ("Rent moves feed shelter inflation and multifamily fundamentals.",
     "Rising rents help MF REITs; falling rents ease inflation but pressure NOI.")
  else
    ("Relevant development for housing and markets.",
     "Watch second-order effects across builders, lenders, and REITs.")

/-- A pooled candidate, the tuple appended by the fetch loop of
build_101020_from_rss: resolved timestamp, stripped title, stripped link,
and the underlying entry. -/
structure PoolItem where
  ts : Int
  title : String
  link : String
  entry : Entry
deriving DecidableEq

/-- DAYS_WINDOW_101020 from src/updater/main.py. -/
def daysWindow : Int := 7

/-- One entry of the fetch loop of build_101020_from_rss: the stripped
title and link must be non-empty and the resolved timestamp known and not
before the cutoff, in which case the tuple joins the pool. -/
def poolStep (cutoff : Int) (pool : List PoolItem) (e : Entry) : List PoolItem :=
  let title := stripStr ((e.title).getD "")
  let link := stripStr ((e.link).getD "")
  if title = "" ∨ link = "" then pool
  else
    match tsFromEntry e with
    | none => pool
    | some ts => if ts < cutoff then pool else pool ++ [⟨ts, title, link, e⟩]

/-- One source of the fetch loop: a failed parse contributes nothing (the
except branch), a successful one feeds its first twenty-five entries to the
per-entry step. -/
def srcStep (cutoff : Int) (pool : List PoolItem) (s : Except Unit (List Entry)) : List PoolItem :=
  match s with
  | .error _ => pool
  | .ok entries => (entries.take 25).foldl (poolStep cutoff) pool

/-- The fetch-and-filter loop of build_101020_from_rss over all sources,
with the cutoff of seven days before now. -/
def buildPool (srcs : List (Except Unit (List Entry))) (now : Int) : List PoolItem :=
  srcs.foldl (srcStep (now - daysWindow * 24 * 3600)) []

/-- The entries a per-source parse result contributes: none on failure. -/
def srcEntries : Except Unit (List Entry) → List Entry
  | .error _ => []
  | .ok l => l

/-- One step of the dedup dictionary of build_101020_from_rss: a new key is
inserted at the end, an existing key keeps its position and its stored item
is replaced exactly when the incoming timestamp is strictly greater. -/
def upsert (acc : List (String × PoolItem)) (k : String) (v : PoolItem) : List (String × PoolItem) :=
  match acc with
  | [] => [(k, v)]
  | (k', v') :: rest =>
    if k' = k then (k', if v'.ts < v.ts then v else v') :: rest
    else (k', v') :: upsert rest k v

/-- The dedup dictionary built over the pool, keyed by the lowercased title. -/
def dedupPool (pool : List PoolItem) : List (String × PoolItem) :=
  pool.foldl (fun acc it => upsert acc (lowerStr it.title) it) []

/-- Association lookup over the dedup dictionary. -/
def lookupS (k : String) : List (String × PoolItem) → Option PoolItem
  | [] => none
  | (k', v) :: rest => if k' = k then some v else lookupS k rest

/-- Insertion into a descending-by-timestamp list, placing the new element
after every element with an equal or greater timestamp. -/
def insertDesc (x : PoolItem) : List PoolItem → List PoolItem
  | [] => [x]
  | y :: r => if y.ts < x.ts then x :: y :: r else y :: insertDesc x r

/-- Stable descending sort by timestamp, extensionally the sorted call with
the timestamp key and reverse order in build_101020_from_rss. -/
def sortTsDesc (l : List PoolItem) : List PoolItem :=
  l.foldl (fun acc x => insertDesc x acc) []

/-- The structured output record appended to a bucket, with the field names
of src/updater/main.py. -/
structure OutItem where
  title : String
  url : String
  what : String
  numbers : String
  justified : String
  why : String
  market : String
deriving DecidableEq

/-- Field extraction of the classify-and-structure loop of
build_101020_from_rss for one surviving item. -/
def mkOut (it : PoolItem) : OutItem :=
  let bodyRaw := entryBody it.entry
  let tl := lowerStr it.title
  let bodyLc := lowerStr (cleanStr bodyRaw)
  let src := if bodyRaw = "" then it.title else bodyRaw
  let w0 := firstSentence src
  let wm := inferWhyMarket tl bodyLc
  { title := it.title
    url := it.link
    what := if w0 = "" then it.title else w0
    numbers := extractNumbers src
    justified := domainStr it.link ++ " — " ++ it.link
    why := wm.1
    market := wm.2 }

/-- Bucket decision for one surviving item, over the lowercased title and
the lowercased cleaned body. -/
def bucketOf (it : PoolItem) : Bucket :=
  classify (lowerStr it.title) (lowerStr (cleanStr (entryBody it.entry)))

/-- The three output arrays of the builder. -/
structure Buckets where
  macroB : List OutItem
  housing : List OutItem
  notables : List OutItem
deriving DecidableEq

/-- One step of the classify-and-structure loop: the structured record is
appended at the end of exactly the bucket chosen by the classifier. -/
def cStep (b : Buckets) (it : PoolItem) : Buckets :=
  match bucketOf it with
  | .macroB => { b with macroB := b.macroB ++ [mkOut it] }
  | .housing => { b with housing := b.housing ++ [mkOut it] }
  | .notables => { b with notables := b.notables ++ [mkOut it] }

/-- The build_101020_from_rss pipeline of src/updater/main.py over
already-fetched per-source parse results: pool, dedup, newest-first sort,
classification and structuring, and the final per-bucket truncation. -/
def build101020 (srcs : List (Except Unit (List Entry))) (now : Int)
    (mMax hMax nMax : Nat) : Buckets :=
  let pool := buildPool srcs now
  let items := sortTsDesc ((dedupPool pool).map Prod.snd)
  let out := items.foldl cStep ⟨[], [], []⟩
  ⟨out.macroB.take mMax, out.housing.take hMax, out.notables.take nMax⟩

/-- The concatenation of the three buckets: the full result. -/
def allItems (b : Buckets) : List OutItem :=
  b.macroB ++ b.housing ++ b.notables

/-- Running maximum of timestamps over a list, from a starting value. -/
def maxTsFrom (i : Int) (l : List PoolItem) : Int :=
  l.foldl (fun m y => max m y.ts) i

/-- Specification-side characterization of the deduplicator, stated from the
claim rather than the code: among the entries sharing a key, the survivor is
the first one in pool order whose timestamp attains the maximum. -/
def keepNewest : List PoolItem → Option PoolItem
  | [] => none
  | x :: l => (x :: l).find? (fun y => y.ts == maxTsFrom x.ts l)

/-- Folding a previously kept candidate into the selection. -/
def keepNewestFrom : Option PoolItem → List PoolItem → Option PoolItem
  | none, l => keepNewest l
  | some v, l => keepNewest (v :: l)

/-- Concrete entry: a syndicated headline at time 1000. -/
def fedEntryA : Entry :=
  ⟨some "Fed Raises Rates", some "https://a.example/x", some 1000, none, none, none, none, none⟩

/-- Concrete entry: the same headline from another source one hour later. -/
def fedEntryB : Entry :=
  ⟨some "Fed Raises Rates", some "https://b.example/y", some 4600, none, none, none, none, none⟩

/-- Concrete entry whose body is the CPI scenario sentence of the spec. -/
def cpiEntry : Entry :=
  ⟨some "Consumer report", some "https://example.com/cpi", some 1000, none, none,
   some "CPI rose 3.1% in May, the largest gain since March", none, none⟩

/-- Concrete entry dated one hour into the future relative to now = 1000000. -/
def futureEntry : Entry :=
  ⟨some "A", some "l", some 1003600, none, none, none, none, none⟩

/-- Concrete entry whose only timestamp candidate is the created time. -/
def createdOnlyEntry : Entry :=
  ⟨some "t", some "l", none, none, some 123, none, none, none⟩

/-- Concrete keyword-free entry with no body. -/
def plainEntry : Entry :=
  ⟨some "Hello World", some "https://a.example/x", some 500, none, none, none, none, none⟩

/-- Concrete fresh entry relative to now = 1000000. -/
def freshEntry : Entry :=
  ⟨some "A", some "l", some 999000, none, none, none, none, none⟩

/-- The structured record the pipeline emits for plainEntry. -/
def plainOut : OutItem :=
  ⟨"Hello World", "https://a.example/x", "Hello World", "",
   "a.example — https://a.example/x",
   "Relevant development for housing and markets.",
   "Watch second-order effects across builders, lenders, and REITs."⟩

/-- The deduplicated, newest-first survivor sequence of the pipeline: the
value of the items variable inside build_101020_from_rss. -/
def survivors (srcs : List (Except Unit (List Entry))) (now : Int) : List PoolItem :=
  sortTsDesc ((dedupPool (buildPool srcs now)).map Prod.snd)

/-- The three buckets of build_101020_from_rss before the final truncation. -/
def untrimmed (srcs : List (Except Unit (List Entry))) (now : Int) : Buckets :=
  (survivors srcs now).foldl cStep ⟨[], [], []⟩

/-- The invariant the freshness filter establishes for pooled items:
non-empty stripped title and link, and a known timestamp at or after the
cutoff. -/
def poolInv (cutoff : Int) (x : PoolItem) : Prop :=
  x.title ≠ "" ∧ x.link ≠ "" ∧ cutoff ≤ x.ts

/-! Helper lemmas about the pool construction. -/

lemma mem_poolStep {cutoff : Int} {pool : List PoolItem} {e : Entry} {x : PoolItem}
    (hx : x ∈ poolStep cutoff pool e) : x ∈ pool ∨ poolInv cutoff x := by
  simp only [poolStep] at hx
  by_cases h1 : stripStr ((e.title).getD "") = "" ∨ stripStr ((e.link).getD "") = ""
  · rw [if_pos h1] at hx
    exact Or.inl hx
  · rw [if_neg h1] at hx
    push_neg at h1
    rcases hts : tsFromEntry e with _ | ts
    · simp only [hts] at hx
      exact Or.inl hx
    · simp only [hts] at hx
      by_cases h2 : ts < cutoff
      · rw [if_pos h2] at hx
        exact Or.inl hx
      · rw [if_neg h2] at hx
        rcases List.mem_append.mp hx with h | h
        · exact Or.inl h
        · rcases List.mem_singleton.mp h with rfl
          exact Or.inr ⟨h1.1, h1.2, le_of_not_lt h2⟩

lemma mem_foldl_poolStep {cutoff : Int} :
    ∀ (es : List Entry) (pool : List PoolItem) (x : PoolItem),
      x ∈ es.foldl (poolStep cutoff) pool → x ∈ pool ∨ poolInv cutoff x := by
  intro es
  induction es with
  | nil => exact fun pool x hx => Or.inl hx
  | cons e es ih =>
    intro pool x hx
    rcases ih (poolStep cutoff pool e) x hx with h | h
    · exact mem_poolStep h
    · exact Or.inr h

lemma mem_srcStep {cutoff : Int} {pool : List PoolItem} {s : Except Unit (List Entry)}
    {x : PoolItem} (hx : x ∈ srcStep cutoff pool s) : x ∈ pool ∨ poolInv cutoff x := by
  cases s with
  | error e => exact Or.inl hx
  | ok entries => exact mem_foldl_poolStep _ _ _ hx

lemma mem_foldl_srcStep {cutoff : Int} :
    ∀ (srcs : List (Except Unit (List Entry))) (pool : List PoolItem) (x : PoolItem),
      x ∈ srcs.foldl (srcStep cutoff) pool → x ∈ pool ∨ poolInv cutoff x := by
  intro srcs
  induction srcs with
  | nil => exact fun pool x hx => Or.inl hx
  | cons s rest ih =>
    intro pool x hx
    rcases ih (srcStep cutoff pool s) x hx with h | h
    · exact mem_srcStep h
    · exact Or.inr h

lemma mem_buildPool {srcs : List (Except Unit (List Entry))} {now : Int} {x : PoolItem}
    (hx : x ∈ buildPool srcs now) : poolInv (now - daysWindow * 24 * 3600) x := by
  rcases mem_foldl_srcStep srcs [] x hx with h | h
  · exact absurd h (List.not_mem_nil x)
  · exact h

lemma foldl_srcStep_of_empty {cutoff : Int} :
    ∀ (srcs : List (Except Unit (List Entry))) (acc : List PoolItem),
      (∀ s ∈ srcs, srcEntries s = []) → srcs.foldl (srcStep cutoff) acc = acc := by
  intro srcs
  induction srcs with
  | nil => exact fun acc _ => rfl
  | cons s rest ih =>
    intro acc h
    have hs : srcStep cutoff acc s = acc := by
      cases s with
      | error e => rfl
      | ok l =>
        have hl : l = [] := h (Except.ok l) (List.mem_cons_self _ _)
        subst hl
        rfl
    rw [List.foldl_cons, hs]
    exact ih acc fun s' hs' => h s' (by simp [hs'])

/-! Claim C1: classifier priority. -/

/-- C1 counterexample: the claim quantifies over inputs whose combined
lowercased title and body contain a macro keyword, but the code tests each
keyword separately in the title and in the body.  The macro keyword spanning
the title-body boundary here is invisible to the code, and the housing
keyword in the title wins, so the claim as stated fails. -/
theorem c1_combined_straddle_cex :
    "mortgage rate" ∈ macroKws ∧
    occursIn "mortgage rate" ("mortgage" ++ " " ++ "rate hike") = true ∧
    classify "mortgage" "rate hike" = Bucket.housing := by decide

/-- C1 amended: when a macro keyword occurs within the lowercased title or
within the lowercased cleaned body, the classifier returns macro regardless
of housing keywords; housing is returned exactly when no macro keyword
matches but a housing keyword does; otherwise notables.  The classifier is a
total function into the three-element bucket type, so every item gets
exactly one bucket. -/
theorem c1_classifier_priority_amended (tl bodyLc : String) :
    ((∃ k ∈ macroKws, occursIn k tl = true ∨ occursIn k bodyLc = true) →
      classify tl bodyLc = Bucket.macroB) ∧
    ((¬ ∃ k ∈ macroKws, occursIn k tl = true ∨ occursIn k bodyLc = true) →
      (∃ k ∈ housingKws, occursIn k tl = true ∨ occursIn k bodyLc = true) →
      classify tl bodyLc = Bucket.housing) ∧
    ((¬ ∃ k ∈ macroKws, occursIn k tl = true ∨ occursIn k bodyLc = true) →
      (¬ ∃ k ∈ housingKws, occursIn k tl = true ∨ occursIn k bodyLc = true) →
      classify tl bodyLc = Bucket.notables) := by
  refine ⟨?_, ?_, ?_⟩
  · rintro ⟨k, hk, h⟩
    have hm : (macroKws.any fun k => occursIn k tl || occursIn k bodyLc) = true := by
      rw [List.any_eq_true]
      exact ⟨k, hk, by rcases h with h | h <;> simp [h]⟩
    simp [classify, hm]
  · intro hnm hh
    have hm : (macroKws.any fun k => occursIn k tl || occursIn k bodyLc) = false := by
      rw [List.any_eq_false]
      intro k hk hc
      exact hnm ⟨k, hk, by simpa using hc⟩
    rcases hh with ⟨k, hk, h⟩
    have hh' : (housingKws.any fun k => occursIn k tl || occursIn k bodyLc) = true := by
      rw [List.any_eq_true]
      exact ⟨k, hk, by rcases h with h | h <;> simp [h]⟩
    simp [classify, hm, hh']
  · intro hnm hnh
    have hm : (macroKws.any fun k => occursIn k tl || occursIn k bodyLc) = false := by
      rw [List.any_eq_false]
      intro k hk hc
      exact hnm ⟨k, hk, by simpa using hc⟩
    have hh : (housingKws.any fun k => occursIn k tl || occursIn k bodyLc) = false := by
      rw [List.any_eq_false]
      intro k hk hc
      exact hnh ⟨k, hk, by simpa using hc⟩
    simp [classify, hm, hh]

/-- C1 witness: the amended priority rule applied at a concrete input. -/
theorem c1_classifier_priority_witness : classify "cpi" "" = Bucket.macroB :=
  (c1_classifier_priority_amended "cpi" "").1 ⟨"cpi", by decide, Or.inl (by decide)⟩

/-! Claim C2: freshness window. -/

/-- C2 counterexample: an entry dated one hour into the future survives the
freshness filter, so a surviving timestamp need not lie in the closed
interval ending at now — the filter enforces no upper bound. -/
theorem c2_future_timestamp_cex :
    buildPool [Except.ok [futureEntry]] 1000000 = [⟨1003600, "A", "l", futureEntry⟩] ∧
    ¬ ((1003600 : Int) ≤ 1000000) := by decide

/-- C2 amended: every item surviving the freshness filter has a known
timestamp at or after now minus the seven-day window; unknown or older
timestamps are dropped.  No upper bound is enforced, so future-dated items
are admitted. -/
theorem c2_pool_freshness_amended (srcs : List (Except Unit (List Entry))) (now : Int)
    (x : PoolItem) (hx : x ∈ buildPool srcs now) : now - 604800 ≤ x.ts := by
  have h := (mem_buildPool hx).2.2
  have harith : now - daysWindow * 24 * 3600 = now - 604800 := by
    norm_num [daysWindow]
  rw [harith] at h
  exact h

/-- C2 witness: the freshness bound applied to a concrete surviving item. -/
theorem c2_pool_freshness_witness : (1000000 : Int) - 604800 ≤ 999000 :=
  c2_pool_freshness_amended [Except.ok [freshEntry]] 1000000
    ⟨999000, "A", "l", freshEntry⟩ (by decide)

/-! Claim C5: the CPI scenario. -/

/-- C5 evaluation at the failing input: the entry whose body is the CPI
scenario sentence lands in the macro bucket as the claim says, but its
numbers field is the bare token without the percent sign, because the
percent alternative of the number pattern is shadowed by the general-number
alternative, which the regex engine tries first and which already matches at
every digit. -/
theorem c5_cpi_scenario_eval :
    (build101020 [Except.ok [cpiEntry]] 1000 10 10 20).macroB.map OutItem.numbers = ["3.1"] ∧
    (build101020 [Except.ok [cpiEntry]] 1000 10 10 20).housing = [] ∧
    (build101020 [Except.ok [cpiEntry]] 1000 10 10 20).notables = [] ∧
    occursIn "3.1%" (extractNumbers "CPI rose 3.1% in May, the largest gain since March") = false := by
  decide

/-! Claim C6: total failure yields three empty buckets. -/

/-- C6: when every configured source fails or yields no entries, the builder
returns the record with the three bucket arrays all empty; the builder is a
total function into that three-field record type, so it never raises and
always produces exactly the three arrays. -/
theorem c6_empty_sources_empty_buckets (srcs : List (Except Unit (List Entry))) (now : Int)
    (mm mh mn : Nat) (h : ∀ s ∈ srcs, srcEntries s = []) :
    build101020 srcs now mm mh mn = ⟨[], [], []⟩ := by
  have hp : buildPool srcs now = [] := foldl_srcStep_of_empty srcs [] h
  simp [build101020, hp, dedupPool, sortTsDesc]

/-- C6 witness: a failed source plus an empty source produce three empty
buckets. -/
theorem c6_empty_sources_witness :
    build101020 [Except.error (), Except.ok []] 0 10 10 20 = ⟨[], [], []⟩ :=
  c6_empty_sources_empty_buckets _ 0 10 10 20 (by decide)

/-! Claim C8: timestamp resolution order. -/

/-- C8 counterexample: an entry carrying only a created time resolves to
unknown in the pipeline resolver, while the claimed three-field priority
order would resolve it to that created time. -/
theorem c8_created_only_cex :
    tsFromEntry createdOnlyEntry = none ∧
    [createdOnlyEntry.published, createdOnlyEntry.updated,
      createdOnlyEntry.created].findSome? id = some 123 := by
  exact ⟨rfl, rfl⟩

/-- C8 amended: the pipeline resolver of main.py returns the first known
value among published and updated only, unknown otherwise; the parser of
the unused feeds module returns the first known value among published,
updated and created. -/
theorem c8_ts_resolution_amended (e : Entry) :
    tsFromEntry e = [e.published, e.updated].findSome? id ∧
    tsFromEntryFeeds e = [e.published, e.updated, e.created].findSome? id := by
  rcases e with ⟨t, l, p, u, c, s, d, co⟩
  cases p <;> cases u <;> cases c <;> exact ⟨rfl, rfl⟩

/-! Helper lemmas about maxima, the selection function and the dedup
dictionary. -/

lemma maxTsFrom_cons (i : Int) (y : PoolItem) (l : List PoolItem) :
    maxTsFrom i (y :: l) = maxTsFrom (max i y.ts) l := rfl

lemma le_maxTsFrom (l : List PoolItem) : ∀ i : Int, i ≤ maxTsFrom i l := by
  induction l with
  | nil => exact fun i => le_refl _
  | cons y l ih =>
    intro i
    rw [maxTsFrom_cons]
    exact le_trans (le_max_left _ _) (ih _)

lemma keepNewest_singleton (v : PoolItem) : keepNewest [v] = some v := by
  simp [keepNewest, maxTsFrom, List.find?]

lemma keepNewest_absorb (a b : PoolItem) (l : List PoolItem) :
    keepNewest (a :: b :: l) = keepNewest ((if a.ts < b.ts then b else a) :: l) := by
  by_cases hab : a.ts < b.ts
  · rw [if_pos hab]
    have hM : maxTsFrom a.ts (b :: l) = maxTsFrom b.ts l := by
      rw [maxTsFrom_cons, max_eq_right (le_of_lt hab)]
    simp only [keepNewest, hM]
    have ha : (a.ts == maxTsFrom b.ts l) = false := by
      have hb : b.ts ≤ maxTsFrom b.ts l := le_maxTsFrom l b.ts
      exact beq_eq_false_iff_ne.mpr (ne_of_lt (lt_of_lt_of_le hab hb))
    rw [List.find?_cons (a := a)]
    simp only [ha]
  · rw [if_neg hab]
    have hba : b.ts ≤ a.ts := le_of_not_lt hab
    have hM : maxTsFrom a.ts (b :: l) = maxTsFrom a.ts l := by
      rw [maxTsFrom_cons, max_eq_left hba]
    simp only [keepNewest, hM]
    by_cases hpa : (a.ts == maxTsFrom a.ts l) = true
    · simp only [List.find?_cons, hpa]
    · have hpa0 : (a.ts == maxTsFrom a.ts l) = false := by
        simpa using hpa
      have haM : a.ts < maxTsFrom a.ts l := by
        have hle : a.ts ≤ maxTsFrom a.ts l := le_maxTsFrom l a.ts
        have hne : a.ts ≠ maxTsFrom a.ts l := by simpa using hpa
        exact lt_of_le_of_ne hle hne
      have hpb : (b.ts == maxTsFrom a.ts l) = false :=
        beq_eq_false_iff_ne.mpr (ne_of_lt (lt_of_le_of_lt hba haM))
      simp only [List.find?_cons, hpa0, hpb]

lemma lookupS_upsert_self : ∀ (acc : List (String × PoolItem)) (k : String) (v : PoolItem),
    lookupS k (upsert acc k v) =
      some (match lookupS k acc with
            | none => v
            | some w => if w.ts < v.ts then v else w) := by
  intro acc
  induction acc with
  | nil => intro k v; simp [upsert, lookupS]
  | cons p rest ih =>
    intro k v
    obtain ⟨k', w⟩ := p
    by_cases hk : k' = k
    · subst hk
      simp [upsert, lookupS]
    · simp [upsert, lookupS, hk, ih k v]

lemma lookupS_upsert_other : ∀ (acc : List (String × PoolItem)) (k j : String) (v : PoolItem),
    j ≠ k → lookupS j (upsert acc k v) = lookupS j acc := by
  intro acc
  induction acc with
  | nil => intro k j v h; simp [upsert, lookupS, Ne.symm h]
  | cons p rest ih =>
    intro k j v h
    obtain ⟨k', w⟩ := p
    by_cases hk : k' = k
    · subst hk
      simp [upsert, lookupS, Ne.symm h]
    · simp [upsert, lookupS, hk, ih k j v h]

lemma dedupPool_lookup : ∀ (pool : List PoolItem) (acc : List (String × PoolItem)) (k : String),
    lookupS k (pool.foldl (fun acc it => upsert acc (lowerStr it.title) it) acc) =
      keepNewestFrom (lookupS k acc) (pool.filter fun it => lowerStr it.title == k) := by
  intro pool
  induction pool with
  | nil =>
    intro acc k
    rcases h : lookupS k acc with _ | v
    · simp [keepNewestFrom, keepNewest, h]
    · simp [keepNewestFrom, h, keepNewest_singleton]
  | cons it rest ih =>
    intro acc k
    rw [List.foldl_cons, ih]
    by_cases hk : lowerStr it.title = k
    · have hfil : (it :: rest).filter (fun it => lowerStr it.title == k) =
          it :: rest.filter (fun it => lowerStr it.title == k) := by
        simp [List.filter_cons, hk]
      rw [hfil, hk, lookupS_upsert_self]
      rcases h : lookupS k acc with _ | w
      · simp [keepNewestFrom]
      · simp only [keepNewestFrom]
        exact (keepNewest_absorb w it _).symm
    · have hfil : (it :: rest).filter (fun it => lowerStr it.title == k) =
          rest.filter (fun it => lowerStr it.title == k) := by
        simp [List.filter_cons, hk]
      rw [hfil, lookupS_upsert_other acc (lowerStr it.title) k it (Ne.symm hk)]

/-! Claim C3: dedup keeps the newest, stably. -/

/-- C3: the dedup dictionary realizes the claimed selection exactly — for
every pool and key, the stored survivor is the first entry in pool order
among the entries with that key whose timestamp attains their maximum (so
equal-timestamp duplicates resolve to the first seen); and in the concrete
two-source scenario of the syndicated headline at times 1000 and 4600, only
the later instance survives. -/
theorem c3_dedup_keeps_newest :
    (∀ (pool : List PoolItem) (k : String),
        lookupS k (dedupPool pool) =
          keepNewest (pool.filter fun it => lowerStr it.title == k)) ∧
    dedupPool [⟨1000, "Fed Raises Rates", "https://a.example/x", fedEntryA⟩,
               ⟨4600, "Fed Raises Rates", "https://b.example/y", fedEntryB⟩] =
      [("fed raises rates", ⟨4600, "Fed Raises Rates", "https://b.example/y", fedEntryB⟩)] := by
  constructor
  · intro pool k
    have h := dedupPool_lookup pool [] k
    simpa [dedupPool, lookupS, keepNewestFrom] using h
  · decide

/-! Helper lemmas about the number-token dedup loop. -/

lemma dedupByGo_sublist (f : String → String) :
    ∀ (l : List String) (seen : List String), (dedupByGo f seen l).Sublist l := by
  intro l
  induction l with
  | nil => intro seen; simp [dedupByGo]
  | cons x r ih =>
    intro seen
    simp only [dedupByGo]
    by_cases h : f x ∈ seen
    · rw [if_pos h]
      exact (ih seen).trans (List.sublist_cons_self x r)
    · rw [if_neg h]
      exact (ih _).cons₂ x

lemma dedupByGo_not_seen (f : String → String) :
    ∀ (l seen : List String) (x : String), x ∈ dedupByGo f seen l → f x ∉ seen := by
  intro l
  induction l with
  | nil => intro seen x hx; simp [dedupByGo] at hx
  | cons y r ih =>
    intro seen x hx
    simp only [dedupByGo] at hx
    by_cases h : f y ∈ seen
    · rw [if_pos h] at hx
      exact ih seen x hx
    · rw [if_neg h] at hx
      rcases List.mem_cons.mp hx with rfl | hx'
      · exact h
      · have hns := ih _ x hx'
        intro hc
        exact hns (List.mem_cons_of_mem _ hc)

lemma dedupByGo_pairwise (f : String → String) :
    ∀ (l seen : List String),
      List.Pairwise (fun a b => f a ≠ f b) (dedupByGo f seen l) := by
  intro l
  induction l with
  | nil => intro seen; simp [dedupByGo]
  | cons y r ih =>
    intro seen
    simp only [dedupByGo]
    by_cases h : f y ∈ seen
    · rw [if_pos h]
      exact ih seen
    · rw [if_neg h]
      refine List.Pairwise.cons ?_ (ih _)
      intro b hb hc
      exact dedupByGo_not_seen f r (f y :: seen) b hb (hc ▸ List.mem_cons_self (f y) seen)

/-! Claim C4: shape of the numbers field. -/

/-- C4: for every input text, the numbers field is the capped token list
joined by comma-space; that list holds at most six tokens, no two of which
are equal case-insensitively, and it is a sublist of the stripped pattern
matches in their order of occurrence in the cleaned text; when the pattern
finds nothing, the field is the empty string. -/
theorem c4_numbers_shape (text : String) :
    extractNumbers text = String.intercalate ", " (numTokens text) ∧
    (numTokens text).length ≤ 6 ∧
    List.Pairwise (fun a b => lowerStr a ≠ lowerStr b) (numTokens text) ∧
    (numTokens text).Sublist ((findallNum (cleanStr text)).map stripStr) ∧
    (findallNum (cleanStr text) = [] → extractNumbers text = "") := by
  refine ⟨rfl, List.length_take_le _ _, ?_, ?_, ?_⟩
  · exact List.Pairwise.sublist (List.take_sublist _ _) (dedupByGo_pairwise _ _ _)
  · exact (List.take_sublist _ _).trans (dedupByGo_sublist _ _ _)
  · intro h
    simp only [extractNumbers, numTokens, h, List.map_nil, dedupByGo, List.take_nil]
    rfl

/-- C4 witness: a text with no numeric tokens yields the empty field. -/
theorem c4_numbers_shape_witness : extractNumbers "just words" = "" :=
  (c4_numbers_shape "just words").2.2.2.2 (by decide)

/-! Helper lemmas: structure of the dedup dictionary. -/

lemma mem_upsert_val : ∀ (acc : List (String × PoolItem)) (k : String) (v : PoolItem)
    (p : String × PoolItem), p ∈ upsert acc k v → p.2 = v ∨ ∃ q ∈ acc, p.2 = q.2 := by
  intro acc
  induction acc with
  | nil =>
    intro k v p hp
    simp [upsert] at hp
    subst hp
    exact Or.inl rfl
  | cons q rest ih =>
    intro k v p hp
    obtain ⟨k', w⟩ := q
    by_cases h : k' = k
    · subst h
      simp [upsert] at hp
      rcases hp with rfl | hp
      · by_cases hw : w.ts < v.ts
        · rw [if_pos hw]
          exact Or.inl rfl
        · rw [if_neg hw]
          exact Or.inr ⟨(k', w), List.mem_cons_self _ _, rfl⟩
      · exact Or.inr ⟨p, List.mem_cons_of_mem _ hp, rfl⟩
    · simp [upsert, h] at hp
      rcases hp with rfl | hp
      · exact Or.inr ⟨(k', w), List.mem_cons_self _ _, rfl⟩
      · rcases ih k v p hp with hv | ⟨q, hq, hpq⟩
        · exact Or.inl hv
        · exact Or.inr ⟨q, List.mem_cons_of_mem _ hq, hpq⟩

lemma upsert_key_inv : ∀ (acc : List (String × PoolItem)) (k : String) (v : PoolItem),
    (∀ p ∈ acc, p.1 = lowerStr p.2.title) → k = lowerStr v.title →
    ∀ p ∈ upsert acc k v, p.1 = lowerStr p.2.title := by
  intro acc
  induction acc with
  | nil =>
    intro k v _ hk p hp
    simp [upsert] at hp
    subst hp
    exact hk
  | cons q rest ih =>
    intro k v hacc hk p hp
    obtain ⟨k', w⟩ := q
    by_cases h : k' = k
    · subst h
      simp [upsert] at hp
      rcases hp with rfl | hp
      · by_cases hw : w.ts < v.ts
        · rw [if_pos hw]
          exact hk
        · rw [if_neg hw]
          exact hacc (k', w) (List.mem_cons_self _ _)
      · exact hacc p (List.mem_cons_of_mem _ hp)
    · simp [upsert, h] at hp
      rcases hp with rfl | hp
      · exact hacc (k', w) (List.mem_cons_self _ _)
      · exact ih k v (fun p' hp' => hacc p' (List.mem_cons_of_mem _ hp')) hk p hp

lemma mem_keys_upsert : ∀ (acc : List (String × PoolItem)) (k : String) (v : PoolItem)
    (j : String), j ∈ (upsert acc k v).map Prod.fst → j ∈ acc.map Prod.fst ∨ j = k := by
  intro acc
  induction acc with
  | nil =>
    intro k v j hj
    simp [upsert] at hj
    exact Or.inr hj
  | cons q rest ih =>
    intro k v j hj
    obtain ⟨k', w⟩ := q
    by_cases h : k' = k
    · subst h
      have hu : upsert ((k', w) :: rest) k' v =
          (k', if w.ts < v.ts then v else w) :: rest := by
        simp [upsert]
      rw [hu, List.map_cons, List.mem_cons] at hj
      rw [List.map_cons]
      rcases hj with rfl | hj
      · exact Or.inl (List.mem_cons_self _ _)
      · exact Or.inl (List.mem_cons_of_mem _ hj)
    · have hu : upsert ((k', w) :: rest) k v = (k', w) :: upsert rest k v := by
        simp [upsert, h]
      rw [hu, List.map_cons, List.mem_cons] at hj
      rw [List.map_cons]
      rcases hj with rfl | hj
      · exact Or.inl (List.mem_cons_self _ _)
      · rcases ih k v j hj with hj' | rfl
        · exact Or.inl (List.mem_cons_of_mem _ hj')
        · exact Or.inr rfl

lemma nodup_keys_upsert : ∀ (acc : List (String × PoolItem)) (k : String) (v : PoolItem),
    (acc.map Prod.fst).Nodup → ((upsert acc k v).map Prod.fst).Nodup := by
  intro acc
  induction acc with
  | nil =>
    intro k v _
    simp [upsert]
  | cons q rest ih =>
    intro k v hnd
    obtain ⟨k', w⟩ := q
    by_cases h : k' = k
    · subst h
      simpa [upsert] using hnd
    · rw [List.map_cons, List.nodup_cons] at hnd
      have hgoal : ((upsert rest k v).map Prod.fst).Nodup := ih k v hnd.2
      have hnm : k' ∉ (upsert rest k v).map Prod.fst := by
        intro hc
        rcases mem_keys_upsert rest k v k' hc with hc' | rfl
        · exact hnd.1 hc'
        · exact h rfl
      have hu : upsert ((k', w) :: rest) k v = (k', w) :: upsert rest k v := by
        simp [upsert, h]
      rw [hu, List.map_cons, List.nodup_cons]
      exact ⟨hnm, hgoal⟩

lemma dedup_fold_key_inv : ∀ (pool : List PoolItem) (acc : List (String × PoolItem)),
    (∀ p ∈ acc, p.1 = lowerStr p.2.title) →
    ∀ p ∈ pool.foldl (fun acc it => upsert acc (lowerStr it.title) it) acc,
      p.1 = lowerStr p.2.title := by
  intro pool
  induction pool with
  | nil => exact fun acc hacc => hacc
  | cons it rest ih =>
    intro acc hacc
    exact ih _ (upsert_key_inv acc (lowerStr it.title) it hacc rfl)

lemma dedup_fold_nodup : ∀ (pool : List PoolItem) (acc : List (String × PoolItem)),
    (acc.map Prod.fst).Nodup →
    ((pool.foldl (fun acc it => upsert acc (lowerStr it.title) it) acc).map Prod.fst).Nodup := by
  intro pool
  induction pool with
  | nil => exact fun acc hacc => hacc
  | cons it rest ih =>
    intro acc hacc
    exact ih _ (nodup_keys_upsert acc (lowerStr it.title) it hacc)

lemma dedup_fold_val {P : PoolItem → Prop} : ∀ (pool : List PoolItem)
    (acc : List (String × PoolItem)), (∀ p ∈ acc, P p.2) → (∀ it ∈ pool, P it) →
    ∀ p ∈ pool.foldl (fun acc it => upsert acc (lowerStr it.title) it) acc, P p.2 := by
  intro pool
  induction pool with
  | nil => exact fun acc hacc _ => hacc
  | cons it rest ih =>
    intro acc hacc hpool
    refine ih _ ?_ (fun it' hit' => hpool it' (List.mem_cons_of_mem _ hit'))
    intro p hp
    rcases mem_upsert_val acc (lowerStr it.title) it p hp with hv | ⟨q, hq, hpq⟩
    · rw [hv]
      exact hpool it (List.mem_cons_self _ _)
    · rw [hpq]
      exact hacc q hq

lemma dedupPool_keys_nodup (pool : List PoolItem) :
    ((dedupPool pool).map Prod.fst).Nodup :=
  dedup_fold_nodup pool [] (by simp)

lemma dedupPool_key_inv (pool : List PoolItem) :
    ∀ p ∈ dedupPool pool, p.1 = lowerStr p.2.title :=
  dedup_fold_key_inv pool [] (by simp)

lemma dedupPool_val_mem (pool : List PoolItem) : ∀ p ∈ dedupPool pool, p.2 ∈ pool :=
  dedup_fold_val pool [] (by simp) (fun _ h => h)

/-! Helper lemmas: the sort is a permutation. -/

lemma insertDesc_perm (x : PoolItem) : ∀ l : List PoolItem, (insertDesc x l).Perm (x :: l) := by
  intro l
  induction l with
  | nil => exact List.Perm.refl _
  | cons y r ih =>
    simp only [insertDesc]
    by_cases h : y.ts < x.ts
    · rw [if_pos h]
    · rw [if_neg h]
      exact (ih.cons y).trans (List.Perm.swap x y r)

lemma foldl_insertDesc_perm : ∀ (l acc : List PoolItem),
    (l.foldl (fun acc x => insertDesc x acc) acc).Perm (l ++ acc) := by
  intro l
  induction l with
  | nil => intro acc; simp
  | cons x r ih =>
    intro acc
    rw [List.foldl_cons]
    exact (ih _).trans ((List.Perm.append_left r (insertDesc_perm x acc)).trans
      List.perm_middle)

lemma sortTsDesc_perm (l : List PoolItem) : (sortTsDesc l).Perm l := by
  simpa using foldl_insertDesc_perm l []

/-! Helper lemmas: the classification fold as a permutation. -/

lemma allItems_cStep (b : Buckets) (it : PoolItem) :
    (allItems (cStep b it)).Perm (mkOut it :: allItems b) := by
  unfold cStep
  cases hb : bucketOf it
  · simp only [allItems, List.append_assoc, List.singleton_append]
    exact List.perm_middle
  · simp only [allItems, List.append_assoc, List.singleton_append]
    have h1 : b.macroB ++ (b.housing ++ mkOut it :: b.notables) =
        (b.macroB ++ b.housing) ++ mkOut it :: b.notables := by
      simp [List.append_assoc]
    rw [h1]
    have h2 := @List.perm_middle _ (mkOut it) (b.macroB ++ b.housing) b.notables
    simpa [List.append_assoc] using h2
  · simp only [allItems, List.append_assoc, List.singleton_append]
    have h1 : b.macroB ++ (b.housing ++ (b.notables ++ [mkOut it])) =
        (b.macroB ++ (b.housing ++ b.notables)) ++ mkOut it :: [] := by
      simp [List.append_assoc]
    rw [h1]
    have h2 := @List.perm_middle _ (mkOut it) (b.macroB ++ (b.housing ++ b.notables)) []
    simpa [List.append_assoc] using h2

lemma allItems_fold : ∀ (items : List PoolItem) (b : Buckets),
    (allItems (items.foldl cStep b)).Perm (allItems b ++ items.map mkOut) := by
  intro items
  induction items with
  | nil => intro b; simp
  | cons it rest ih =>
    intro b
    rw [List.foldl_cons]
    exact (ih _).trans (((allItems_cStep b it).append_right (rest.map mkOut)).trans
      List.perm_middle.symm)

lemma build101020_eq (srcs : List (Except Unit (List Entry))) (now : Int)
    (mm mh mn : Nat) :
    build101020 srcs now mm mh mn =
      ⟨(untrimmed srcs now).macroB.take mm, (untrimmed srcs now).housing.take mh,
       (untrimmed srcs now).notables.take mn⟩ := rfl

lemma mem_build101020 {srcs : List (Except Unit (List Entry))} {now : Int}
    {mm mh mn : Nat} {o : OutItem} (ho : o ∈ allItems (build101020 srcs now mm mh mn)) :
    ∃ it, it ∈ buildPool srcs now ∧ o = mkOut it := by
  rw [build101020_eq] at ho
  have ho' : o ∈ allItems (untrimmed srcs now) := by
    simp only [allItems] at ho ⊢
    rcases List.mem_append.mp ho with h | h
    · rcases List.mem_append.mp h with h' | h'
      · exact List.mem_append.mpr (Or.inl (List.mem_append.mpr
          (Or.inl (List.mem_of_mem_take h'))))
      · exact List.mem_append.mpr (Or.inl (List.mem_append.mpr
          (Or.inr (List.mem_of_mem_take h'))))
    · exact List.mem_append.mpr (Or.inr (List.mem_of_mem_take h))
  have hperm := allItems_fold (survivors srcs now) ⟨[], [], []⟩
  have ho2 : o ∈ (survivors srcs now).map mkOut := by
    have := hperm.mem_iff.mp ho'
    simpa [allItems] using this
  rcases List.mem_map.mp ho2 with ⟨it, hit, rfl⟩
  have hit2 : it ∈ (dedupPool (buildPool srcs now)).map Prod.snd :=
    (sortTsDesc_perm _).mem_iff.mp hit
  rcases List.mem_map.mp hit2 with ⟨p, hp, rfl⟩
  exact ⟨p.2, dedupPool_val_mem _ p hp, rfl⟩

/-! Claim C7: titles are unique across the full result. -/

/-- C7: in the full result of the builder, no two output items — in the
same bucket or in different buckets — share the same lowercased title.
The global dedup dictionary keys survivors by lowercased title before
classification, each survivor lands in exactly one bucket, and truncation
only removes items. -/
theorem c7_unique_titles_across_buckets (srcs : List (Except Unit (List Entry)))
    (now : Int) (mm mh mn : Nat) :
    List.Pairwise (fun a b : OutItem => lowerStr a.title ≠ lowerStr b.title)
      (allItems (build101020 srcs now mm mh mn)) := by
  have h1 : ((dedupPool (buildPool srcs now)).map Prod.fst).Nodup :=
    dedupPool_keys_nodup _
  have h3 : (dedupPool (buildPool srcs now)).map Prod.fst =
      ((dedupPool (buildPool srcs now)).map Prod.snd).map (fun it => lowerStr it.title) := by
    rw [List.map_map]
    exact List.map_congr_left fun p hp => dedupPool_key_inv _ p hp
  have h4 : (((dedupPool (buildPool srcs now)).map Prod.snd).map
      (fun it => lowerStr it.title)).Nodup := h3 ▸ h1
  have h6 : ((survivors srcs now).map (fun it => lowerStr it.title)).Nodup :=
    (((sortTsDesc_perm _).map _).nodup_iff).mpr h4
  have h8 : (((survivors srcs now).map mkOut).map (fun o : OutItem => lowerStr o.title)) =
      (survivors srcs now).map (fun it => lowerStr it.title) := by
    rw [List.map_map]
    exact List.map_congr_left fun it _ => rfl
  have h9 : ((allItems (untrimmed srcs now)).map (fun o : OutItem => lowerStr o.title)).Nodup := by
    refine (((allItems_fold (survivors srcs now) ⟨[], [], []⟩).map _).nodup_iff).mpr ?_
    simpa [allItems, h8] using h6
  have h9' : List.Pairwise (· ≠ ·)
      ((allItems (untrimmed srcs now)).map (fun o : OutItem => lowerStr o.title)) := h9
  rw [List.pairwise_map] at h9'
  have hsub : (allItems (build101020 srcs now mm mh mn)).Sublist
      (allItems (untrimmed srcs now)) := by
    rw [build101020_eq]
    simp only [allItems]
    exact List.Sublist.append
      (List.Sublist.append (List.take_sublist _ _) (List.take_sublist _ _))
      (List.take_sublist _ _)
  exact List.Pairwise.sublist hsub h9'

/-! Claim C9: the justification format. -/

/-- C9 counterexample: for an emitted item whose link host has an inner
www-dot, the justification does not preserve it — str.replace removes every
occurrence, not only a leading one. -/
theorem c9_inner_www_cex :
    (build101020 [Except.ok [⟨some "Hello Town", some "https://news.www.example.com/a",
        some 500, none, none, none, none, none⟩]] 500 10 10 20).notables.map
      OutItem.justified = ["news.example.com — https://news.www.example.com/a"] ∧
    "news.example.com" ≠ "news.www.example.com" := by decide

/-- C9 amended: every emitted item's justification is the item's source
domain, an em dash, and the link, where the source domain is the link's
host with every www-dot occurrence removed (not only a leading one). -/
theorem c9_justified_format_amended (srcs : List (Except Unit (List Entry))) (now : Int)
    (mm mh mn : Nat) (o : OutItem) (ho : o ∈ allItems (build101020 srcs now mm mh mn)) :
    o.justified = domainStr o.url ++ " — " ++ o.url := by
  rcases mem_build101020 ho with ⟨it, _, rfl⟩
  rfl

/-- C9 witness: the justification format at a concrete emitted item. -/
theorem c9_justified_format_witness :
    plainOut.justified = domainStr plainOut.url ++ " — " ++ plainOut.url :=
  c9_justified_format_amended [Except.ok [plainEntry]] 500 10 10 20 plainOut (by decide)

/-! Claim C10: the what field is never empty. -/

/-- C10: every emitted item has a non-empty what field: entries without a
title or link never enter the pool, and when the first sentence of the body
(or of the title, when the body is empty) strips to nothing, the field
falls back to the non-empty title. -/
theorem c10_what_nonempty (srcs : List (Except Unit (List Entry))) (now : Int)
    (mm mh mn : Nat) (o : OutItem) (ho : o ∈ allItems (build101020 srcs now mm mh mn)) :
    o.what ≠ "" := by
  rcases mem_build101020 ho with ⟨it, hit, rfl⟩
  have htitle : it.title ≠ "" := (mem_buildPool hit).1
  by_cases hw : firstSentence (if entryBody it.entry = "" then it.title
      else entryBody it.entry) = ""
  · have heq : (mkOut it).what = it.title := by
      simp [mkOut, hw]
    rw [heq]
    exact htitle
  · have heq : (mkOut it).what = firstSentence (if entryBody it.entry = "" then it.title
        else entryBody it.entry) := by
      simp [mkOut, hw]
    rw [heq]
    exact hw

/-- C10 witness: the non-empty what field at a concrete emitted item. -/
theorem c10_what_nonempty_witness : plainOut.what ≠ "" :=
  c10_what_nonempty [Except.ok [plainEntry]] 500 10 10 20 plainOut (by decide)

end Dashboard
